import Mathlib

/-!
Verification of the concurrency toolkit: thread-safe FIFO queues
(ThreadSafeQueue with one coarse lock, LockedQueue with fine-grained
head/tail locks and a dummy node), a WorkStealingQueue deque, and the
work-stealing ThreadPool built on them.

Modelling conventions for the shallow embedding:
- Every public operation runs under the structure's mutex, so in any single
  global order of operations each call acts atomically on the state; the
  embedding is explicit state passing, one Lean function per C++ member
  function.
- A std::shared_ptr<T> cell is modelled as Option T (none is the null
  pointer); std::unique_ptr<Node> chains are modelled by Lean lists.
- A blocking operation (condition-variable wait with no data, which in a
  single global order would block) and an undefined access (dereference of a
  null pointer, vector access out of range) are both modelled by an Option
  result of none; theorems discharge them under the structural invariants
  that hold for every queue reachable from construction.
- Fallible allocation (std::make_shared, new) is modelled by a fuel
  counter: each allocation consumes one unit, and at zero fuel the
  allocation throws std::bad_alloc, rendered as none with the state
  unchanged (the exception propagates before the structure is touched).
-/

/-! ### ThreadSafeQueue (src/base/simple_thread_safe_queue.h, class ThreadSafeQueue)

One mutex, one condition variable, internal storage
std::queue<std::shared_ptr<T>>.  Push allocates the shared_ptr before
taking the lock; the queue stores only ready, non-null cells, so queue_ is
modelled as the list of pointed-to values, front of the std::queue first. -/

structure ThreadSafeQueue (T : Type) where
  queue_ : List T
deriving DecidableEq, Repr

namespace ThreadSafeQueue

variable {T : Type}

/-- ThreadSafeQueue() {} : empty std::queue. -/
def init : ThreadSafeQueue T := ⟨[]⟩

/-- bool Empty(): lock; return queue_.empty(). -/
def Empty (q : ThreadSafeQueue T) : Bool := q.queue_.isEmpty

/-- void Push(T value): auto data = std::make_shared<T>(std::move(value));
lock; queue_.push(data); cv_.notify_one().  Successful path. -/
def Push (value : T) (q : ThreadSafeQueue T) : ThreadSafeQueue T :=
  ⟨q.queue_ ++ [value]⟩

/-- Push with the allocation budget made explicit: the one std::make_shared
happens before the lock is taken; when it throws (fuel 0) the exception
propagates and the queue is untouched. -/
def PushF (fuel : Nat) (value : T) (q : ThreadSafeQueue T) :
    Option (ThreadSafeQueue T × Nat) :=
  match fuel with
  | 0 => none
  | f + 1 => some (Push value q, f)

/-- std::shared_ptr<T> WaitAndPop(): wait until queue_ nonempty; auto res =
queue_.front(); queue_.pop(); return res.  none means the wait blocks. -/
def WaitAndPop (q : ThreadSafeQueue T) : Option (T × ThreadSafeQueue T) :=
  match q.queue_ with
  | [] => none
  | x :: rest => some (x, ⟨rest⟩)

/-- WaitAndPop with the allocation budget threaded through: the extraction
performs no allocation (it copies the stored shared_ptr), so the budget is
returned unchanged. -/
def WaitAndPopF (fuel : Nat) (q : ThreadSafeQueue T) :
    Option (T × ThreadSafeQueue T × Nat) :=
  (WaitAndPop q).map fun r => (r.1, r.2, fuel)

/-- std::shared_ptr<T> TryPop(): lock; if empty return null shared_ptr; auto
res = queue_.front(); queue_.pop(); return res. -/
def TryPop (q : ThreadSafeQueue T) : Option T × ThreadSafeQueue T :=
  match q.queue_ with
  | [] => (none, q)
  | x :: rest => (some x, ⟨rest⟩)

/-- TryPop with the allocation budget threaded through: no allocation on this
path either. -/
def TryPopF (fuel : Nat) (q : ThreadSafeQueue T) :
    Option (Option T × ThreadSafeQueue T × Nat) :=
  some ((TryPop q).1, (TryPop q).2, fuel)

/-- bool TryPop(T* value): lock; if empty return false (the out-parameter is
not written); *value = std::move(*queue_.front()); queue_.pop(); return
true.  The argument out is the caller's object before the call; the second
component of the result is its content after the call. -/
def TryPopOut (q : ThreadSafeQueue T) (out : T) : Bool × T × ThreadSafeQueue T :=
  match q.queue_ with
  | [] => (false, out, q)
  | x :: rest => (true, x, ⟨rest⟩)

/-- Repeated value-form TryPop, collecting the returned shared_ptr of each
call (used to state empty-queue idempotence). -/
def tryPopN : Nat → ThreadSafeQueue T → List (Option T) × ThreadSafeQueue T
  | 0, q => ([], q)
  | k + 1, q =>
    let r := TryPop q
    let s := tryPopN k r.2
    (r.1 :: s.1, s.2)

end ThreadSafeQueue

/-! ### LockedQueue (src/base/thread_safe_queue.h and src/unnamed/part_000)

Linked queue with a permanent dummy node, a head mutex and a tail mutex.
head_ owns the chain of nodes; tail_ is a raw pointer to the last node of
that chain (the dummy).  The field nodes lists the data_ cell of every node
from the node head_ points to, to the node tail_ points to, inclusive; a
cell is Option T since data_ is a std::shared_ptr<T>.  head_ == tail_ in
the source is "nodes has exactly one entry"; an empty nodes list would mean
head_ is null, which construction rules out. -/

structure LockedQueue (T : Type) where
  nodes : List (Option T)
deriving DecidableEq, Repr

namespace LockedQueue

variable {T : Type}

/-- LockedQueue() : head_(new Node), tail_(head_.get()) — a single dummy node
with null data_ and null next_. -/
def init : LockedQueue T := ⟨[none]⟩

/-- bool Empty(): head lock; return head_.get() == GetTail() (GetTail reads
tail_ under the tail lock).  The head node is the tail node exactly when the
chain has one node. -/
def Empty (q : LockedQueue T) : Bool := q.nodes.length == 1

/-- void Push(T value): data = std::make_shared<T>(std::move(value)); p = new
Node; under the tail lock: tail_->data_ = data (the current tail node, the
dummy, receives the payload); tail_->next_ = p; tail_ = p (the fresh empty
node becomes the new dummy); then cv_.notify_one() after the lock is
released.  none is the unreachable state with no node for tail_ to point
at. -/
def Push (value : T) (q : LockedQueue T) : Option (LockedQueue T) :=
  match q.nodes with
  | [] => none
  | _ :: _ => some ⟨q.nodes.dropLast ++ [some value, none]⟩

/-- Push with the allocation budget explicit: std::make_shared and new Node
are both performed before the tail lock is taken; if either throws the
exception propagates with the queue untouched. -/
def PushF (fuel : Nat) (value : T) (q : LockedQueue T) :
    Option (LockedQueue T × Nat) :=
  match fuel with
  | 0 => none
  | 1 => none
  | f + 2 => (Push value q).map fun q2 => (q2, f)

/-- std::unique_ptr<Node> PopHead(): old_head = std::move(head_); head_ =
std::move(old_head->next_); return old_head.  The result pairs the detached
node's data_ with the advanced chain; none is the dereference of a null
head_. -/
def PopHead (q : LockedQueue T) : Option (Option T × LockedQueue T) :=
  match q.nodes with
  | [] => none
  | x :: rest => some (x, ⟨rest⟩)

/-- The shared shape of TryPopHead()/TryPopHead(T*): under the head lock, if
head_.get() == GetTail() report no data (inner none) leaving the queue
unchanged; otherwise detach the head node, whose data_ must be dereferenced
by the out-parameter form (outer none when data_ is null or head_ is
null). -/
def TryPopHeadX (q : LockedQueue T) : Option (Option (T × LockedQueue T)) :=
  if q.Empty then some none
  else
    match q.nodes with
    | [] => none
    | none :: _ => none
    | some x :: rest => some (some (x, ⟨rest⟩))

/-- std::shared_ptr<T> TryPop(): old_head = TryPopHead(); return old_head ?
old_head->data_ : null.  The first component is the returned shared_ptr. -/
def TryPop (q : LockedQueue T) : Option (Option T × LockedQueue T) :=
  if q.Empty then some (none, q) else PopHead q

/-- TryPop with the allocation budget threaded through: the extraction moves
two unique_ptr values and copies one shared_ptr, no allocation. -/
def TryPopF (fuel : Nat) (q : LockedQueue T) :
    Option (Option T × LockedQueue T × Nat) :=
  (TryPop q).map fun r => (r.1, r.2, fuel)

/-- bool TryPop(T* value): TryPopHead(value) writes *value = std::move(
*head_->data_) only after the emptiness check fails, then pops; returns
whether a node was popped.  The caller's object is out before the call. -/
def TryPopOut (q : LockedQueue T) (out : T) :
    Option (Bool × T × LockedQueue T) :=
  match TryPopHeadX q with
  | none => none
  | some none => some (false, out, q)
  | some (some (x, q2)) => some (true, x, q2)

/-- std::shared_ptr<T> WaitAndPop(): WaitPopHead waits on cv_ under the head
lock until head_.get() != GetTail(), then PopHead; returns
old_head->data_.  none means the wait blocks (queue empty in this global
order) or head_ is null. -/
def WaitAndPop (q : LockedQueue T) : Option (Option T × LockedQueue T) :=
  if q.Empty then none else PopHead q

/-- WaitAndPop with the allocation budget threaded through: no allocation on
the extraction path. -/
def WaitAndPopF (fuel : Nat) (q : LockedQueue T) :
    Option (Option T × LockedQueue T × Nat) :=
  (WaitAndPop q).map fun r => (r.1, r.2, fuel)

/-- Repeated value-form TryPop (empty-queue idempotence statement). -/
def tryPopN : Nat → LockedQueue T → Option (List (Option T) × LockedQueue T)
  | 0, q => some ([], q)
  | k + 1, q =>
    (TryPop q).bind fun r =>
      (tryPopN k r.2).map fun s => (r.1 :: s.1, s.2)

/-- The structural invariant maintained from construction on: the chain has
at least one node (so head_ and tail_ are non-null), the final node is the
dummy (null data_, since only Push fills a data_ cell and it immediately
appends a fresh dummy), and every node before the dummy carries a payload. -/
def Inv (q : LockedQueue T) : Prop :=
  q.nodes ≠ [] ∧ q.nodes.getLast? = some none ∧ ∀ x ∈ q.nodes.dropLast, x ≠ none

instance [DecidableEq T] (q : LockedQueue T) : Decidable (Inv q) := by
  unfold Inv; infer_instance

/-- The logical contents of the queue, oldest first: the payloads of the
nodes before the dummy. -/
def toList (q : LockedQueue T) : List T := q.nodes.dropLast.filterMap id

end LockedQueue

/-! ### WorkStealingQueue (src/unnamed/part_000)

A std::deque<FunctionWrapper> under one mutex.  Push is push_front, the
owner's TryPop is pop_front (LIFO), TrySteal is pop_back (the oldest item).
FunctionWrapper, the move-only type-erased callable, is treated as an
abstract task type T; moving a task is modelled as copying its value.  The
field q_ lists the deque front first, so the head of the list is the push
and owner-pop end. -/

structure WorkStealingQueue (T : Type) where
  q_ : List T
deriving DecidableEq, Repr

namespace WorkStealingQueue

variable {T : Type}

/-- WorkStealingQueue() {} : empty deque. -/
def init : WorkStealingQueue T := ⟨[]⟩

/-- bool Empty() const: lock; return q_.empty(). -/
def Empty (s : WorkStealingQueue T) : Bool := s.q_.isEmpty

/-- void Push(FunctionWrapper data): lock; q_.push_front(std::move(data)). -/
def Push (data : T) (s : WorkStealingQueue T) : WorkStealingQueue T :=
  ⟨data :: s.q_⟩

/-- The value returned through the out-parameter of bool
TryPop(FunctionWrapper*): lock; if q_.empty() return false; take
q_.front(); q_.pop_front(); return true.  none in the first component is
the false return (nothing popped). -/
def TryPop (s : WorkStealingQueue T) : Option T × WorkStealingQueue T :=
  match s.q_ with
  | [] => (none, s)
  | x :: rest => (some x, ⟨rest⟩)

/-- The value returned through the out-parameter of bool
TrySteal(FunctionWrapper*): lock; if q_.empty() return false; take
q_.back(); q_.pop_back(); return true. -/
def TrySteal (s : WorkStealingQueue T) : Option T × WorkStealingQueue T :=
  match s.q_.getLast? with
  | none => (none, s)
  | some x => (some x, ⟨s.q_.dropLast⟩)

/-- bool TryPop(FunctionWrapper* value) with the caller's object threaded
through: on false the object is left as it was, on true it receives the
popped front. -/
def TryPopOut (s : WorkStealingQueue T) (out : T) :
    Bool × T × WorkStealingQueue T :=
  match s.q_ with
  | [] => (false, out, s)
  | x :: rest => (true, x, ⟨rest⟩)

/-- bool TrySteal(FunctionWrapper* value) with the caller's object threaded
through. -/
def TryStealOut (s : WorkStealingQueue T) (out : T) :
    Bool × T × WorkStealingQueue T :=
  match s.q_.getLast? with
  | none => (false, out, s)
  | some x => (true, x, ⟨s.q_.dropLast⟩)

/-- Repeated owner TryPop (empty-queue idempotence statement). -/
def tryPopN : Nat → WorkStealingQueue T → List (Option T) × WorkStealingQueue T
  | 0, s => ([], s)
  | k + 1, s =>
    let r := TryPop s
    let u := tryPopN k r.2
    (r.1 :: u.1, u.2)

end WorkStealingQueue

/-! ### ThreadPool (src/unnamed/part_000)

State: the atomic shutdown flag done_, the global LockedQueue of tasks, and
one WorkStealingQueue per worker.  The worker threads themselves and the
JoinThreads joiner_ member are modelled by the destruction trace below; the
thread-local pair (my_index_, local_task_queue_) is a WorkerCtx passed
explicitly.  local_task_queue_ is non-null exactly for pool worker threads,
where it points at local_task_queues_[my_index_]; has_local_ records
non-nullness. -/

structure WorkerCtx where
  my_index_ : Nat
  has_local_ : Bool
deriving DecidableEq, Repr

structure ThreadPool (T : Type) where
  done_ : Bool
  global_task_queue_ : LockedQueue T
  local_task_queues_ : List (WorkStealingQueue T)
deriving DecidableEq, Repr

/-- What one call to RunPendingTask did: ran one task, or yielded the
processor (std::this_thread::yield()). -/
inductive RptAction (T : Type) where
  | ran (t : T)
  | yielded
deriving DecidableEq, Repr

/-- The future returned by Submit: std::packaged_task<result_t()>
task(std::move(f)); res = task.get_future() — a handle tied to the
submitted callable, which will eventually yield that callable's result. -/
structure Future (T : Type) where
  of : T
deriving DecidableEq, Repr

namespace ThreadPool

variable {T : Type}

/-- ThreadPool(): done_(false), joiner_(threads_); thread_count =
std::thread::hardware_concurrency(); one fresh WorkStealingQueue and one
worker thread per count.  The host's hardware concurrency is an environment
input.  This is the only constructor of ThreadPool (copying is unavailable:
the members are move-only). -/
def init (T : Type) (hardwareConcurrency : Nat) : ThreadPool T :=
  { done_ := false
    global_task_queue_ := LockedQueue.init
    local_task_queues_ := List.replicate hardwareConcurrency WorkStealingQueue.init }

/-- The number of worker threads of a pool (threads_.size(), equal to the
number of local deques: the constructor creates one per thread). -/
def numWorkers (p : ThreadPool T) : Nat := p.local_task_queues_.length

/-- The ways a ThreadPool can be constructed on a host whose
hardware_concurrency is hw: only ThreadPool(), with no parameters. -/
inductive Construction (T : Type) (hw : Nat) : ThreadPool T → Prop
  | default : Construction T hw (init T hw)

/-- bool PopTaskFromLocalQueue(task_t* task): return local_task_queue_ &&
local_task_queue_->TryPop(task).  The first component of the inner result
is the task written through the pointer (none: returned false, nothing
written).  The outer none is a dangling local_task_queue_ pointer, which
Worker rules out by pointing it at local_task_queues_[my_index_]. -/
def PopTaskFromLocalQueue (ctx : WorkerCtx) (p : ThreadPool T) :
    Option (Option T × ThreadPool T) :=
  if ctx.has_local_ then
    match p.local_task_queues_[ctx.my_index_]? with
    | none => none
    | some w =>
      let r := w.TryPop
      some (r.1, { p with
        local_task_queues_ := p.local_task_queues_.set ctx.my_index_ r.2 })
  else some (none, p)

/-- bool PopTaskFromGlobalQueue(task_t* task): return
global_task_queue_.TryPop(task) — the out-parameter form on the
LockedQueue. -/
def PopTaskFromGlobalQueue (p : ThreadPool T) :
    Option (Option T × ThreadPool T) :=
  match LockedQueue.TryPopHeadX p.global_task_queue_ with
  | none => none
  | some none => some (none, p)
  | some (some (x, g)) => some (some x, { p with global_task_queue_ := g })

/-- The steal loop of PopTaskFromOtherThreadQueue over a precomputed list of
queue indices: try local_task_queues_[index]->TrySteal(task) for each index
in turn, stopping at the first success.  The outer none is an out-of-range
vector access (the computed indices are all below size). -/
def TryStealFrom (qs : List (WorkStealingQueue T)) :
    List Nat → Option (Option T × List (WorkStealingQueue T))
  | [] => some (none, qs)
  | i :: rest =>
    match qs[i]? with
    | none => none
    | some w =>
      match w.TrySteal with
      | (some x, w2) => some (some x, qs.set i w2)
      | (none, _) => TryStealFrom qs rest

/-- The index sequence of the steal loop: for i = 0 .. size-1, index =
(my_index_ + 1 + i) % size. -/
def stealOrder (my n : Nat) : List Nat :=
  (List.range n).map fun i => (my + 1 + i) % n

/-- bool PopTaskFromOtherThreadQueue(task_t* task): the round-robin steal
loop starting just after my_index_. -/
def PopTaskFromOtherThreadQueue (ctx : WorkerCtx) (p : ThreadPool T) :
    Option (Option T × ThreadPool T) :=
  (TryStealFrom p.local_task_queues_
      (stealOrder ctx.my_index_ p.local_task_queues_.length)).map
    fun r => (r.1, { p with local_task_queues_ := r.2 })

/-- void RunPendingTask(): FunctionWrapper task; if
(PopTaskFromLocalQueue(&task) || PopTaskFromGlobalQueue(&task) ||
PopTaskFromOtherThreadQueue(&task)) task(); else
std::this_thread::yield().  The || chain short-circuits, so at most one
source is popped and the found task runs immediately. -/
def RunPendingTask (ctx : WorkerCtx) (p : ThreadPool T) :
    Option (RptAction T × ThreadPool T) :=
  (PopTaskFromLocalQueue ctx p).bind fun r1 =>
    match r1.1 with
    | some t => some (RptAction.ran t, r1.2)
    | none =>
      (PopTaskFromGlobalQueue r1.2).bind fun r2 =>
        match r2.1 with
        | some t => some (RptAction.ran t, r2.2)
        | none =>
          (PopTaskFromOtherThreadQueue ctx r2.2).map fun r3 =>
            match r3.1 with
            | some t => (RptAction.ran t, r3.2)
            | none => (RptAction.yielded, r3.2)

/-- std::future<..> Submit(F f): wrap f in a std::packaged_task, take its
future, then push the task on local_task_queue_ when it is set (the caller
is a pool worker) and on global_task_queue_ otherwise; return the future.
Both pushes are non-blocking; nothing in Submit waits. -/
def Submit (ctx : WorkerCtx) (f : T) (p : ThreadPool T) :
    Option (Future T × ThreadPool T) :=
  if ctx.has_local_ then
    match p.local_task_queues_[ctx.my_index_]? with
    | none => none
    | some w =>
      some (⟨f⟩, { p with
        local_task_queues_ :=
          p.local_task_queues_.set ctx.my_index_ (w.Push f) })
  else
    (LockedQueue.Push f p.global_task_queue_).map fun g =>
      (⟨f⟩, { p with global_task_queue_ := g })

/-- void Worker(unsigned index): my_index_ = index; local_task_queue_ =
local_task_queues_[index].get(); while (!done_) RunPendingTask();  One loop
execution with the given fuel bound: each iteration polls done_ once and
exits the loop when it is set, otherwise runs RunPendingTask once.  The
result collects the actions of the iterations run before exit; none is
either exhausted fuel (the flag never observed set) or a stuck
RunPendingTask. -/
def workerLoop (ctx : WorkerCtx) : Nat → ThreadPool T → Option (List (RptAction T))
  | 0, _ => none
  | fuel + 1, p =>
    if p.done_ then some []
    else
      (RunPendingTask ctx p).bind fun r =>
        (workerLoop ctx fuel r.2).map fun acts => r.1 :: acts

end ThreadPool

/-- The observable steps of ~ThreadPool(): the destructor body runs done_ =
true; then the members are destroyed in reverse declaration order (done_,
global_task_queue_, local_task_queues_, threads_, joiner_), so joiner_ is
destroyed first, and ~JoinThreads joins threads_[0], threads_[1], ... in
index order. -/
inductive ShutdownEvent where
  | setDone
  | joinWorker (i : Nat)
deriving DecidableEq, Repr

/-- The event trace of destroying a pool with n worker threads: set the
shutdown flag, then join every worker. -/
def destructionTrace (n : Nat) : List ShutdownEvent :=
  ShutdownEvent.setDone :: (List.range n).map ShutdownEvent.joinWorker

/-! ### Operation histories in one global order

A history interleaving pushes and blocking pops, applied to one shared
queue.  runTrace returns none when some pop finds the queue empty (that
consumer is still blocked, so the history is not a completed one) or when an
operation reaches a state the source cannot reach. -/

inductive QOp (T : Type) where
  | push (v : T)
  | pop
deriving DecidableEq, Repr

/-- The values pushed by a history, in push order. -/
def pushesOf {T : Type} : List (QOp T) → List T
  | [] => []
  | QOp.push v :: t => v :: pushesOf t
  | QOp.pop :: t => pushesOf t

/-- The number of pops of a history. -/
def popsOf {T : Type} : List (QOp T) → Nat
  | [] => 0
  | QOp.push _ :: t => popsOf t
  | QOp.pop :: t => popsOf t + 1

/-- A queue with a push operation and a blocking pop operation. -/
structure QueueModel (σ T : Type) where
  doPush : T → σ → Option σ
  doPop : σ → Option (T × σ)

/-- Run a history on a queue, returning the final state and the values the
consumer received, in pop order. -/
def runTrace {σ T : Type} (M : QueueModel σ T) :
    List (QOp T) → σ → Option (σ × List T)
  | [], s => some (s, [])
  | QOp.push v :: t, s => (M.doPush v s).bind fun s2 => runTrace M t s2
  | QOp.pop :: t, s =>
    (M.doPop s).bind fun r =>
      (runTrace M t r.2).map fun u => (u.1, r.1 :: u.2)

/-- The LockedQueue as a queue model: Push, and the value-returning
WaitAndPop followed by dereferencing the returned shared_ptr (as the test
harness does). -/
def LockedQueue.model (T : Type) : QueueModel (LockedQueue T) T where
  doPush := LockedQueue.Push
  doPop := fun q =>
    (LockedQueue.WaitAndPop q).bind fun r => r.1.map fun x => (x, r.2)

/-- The ThreadSafeQueue as a queue model: Push (never stuck), and the
value-returning WaitAndPop. -/
def ThreadSafeQueue.model (T : Type) : QueueModel (ThreadSafeQueue T) T where
  doPush := fun v q => some (ThreadSafeQueue.Push v q)
  doPop := ThreadSafeQueue.WaitAndPop
/-! ### Abstract pool contents, and the scheduling order the spec claims

Spec-side definitions for the refinement claims about RunPendingTask and
Submit: the pool is abstracted to the plain contents of its queues, and
RunPendingTaskSpec restates the claimed attempt order word for word, to be
compared with the RunPendingTask translated from the source. -/

/-- Abstract pool contents: each local deque as a plain list (push end
first), and the global queue in FIFO order (oldest first). -/
structure PoolAbs (T : Type) where
  locals : List (List T)
  global : List T
deriving DecidableEq, Repr

/-- The abstraction function from pool states to abstract contents. -/
def poolAbs {T : Type} (p : ThreadPool T) : PoolAbs T :=
  ⟨p.local_task_queues_.map fun w => w.q_,
    LockedQueue.toList p.global_task_queue_⟩

/-- The sibling deques in round-robin order starting at the index just after
my: the n - 1 indices my + 1, my + 2, ..., wrapping modulo n. -/
def siblingOrder (my n : Nat) : List Nat :=
  (List.range (n - 1)).map fun i => (my + 1 + i) % n

/-- Spec-side steal: take the oldest item of the first non-empty deque in
the given index order. -/
def stealFirstSpec {T : Type} (locals : List (List T)) :
    List Nat → Option (T × List (List T))
  | [] => none
  | i :: rest =>
    match (locals.getD i []).getLast? with
    | some t => some (t, locals.set i (locals.getD i []).dropLast)
    | none => stealFirstSpec locals rest

/-- The attempt order the claim states for RunPendingTask: (1) the caller's
own local deque (newest item), (2) the global queue (oldest item), (3) the
first successful steal over the sibling deques in round-robin order
starting just after the caller's index (oldest item of that deque); the
first task found is executed, and if all three fail the call yields and
changes nothing. -/
def RunPendingTaskSpec {T : Type} (ctx : WorkerCtx) (a : PoolAbs T) :
    RptAction T × PoolAbs T :=
  match a.locals.getD ctx.my_index_ [] with
  | t :: rest =>
    (RptAction.ran t, ⟨a.locals.set ctx.my_index_ rest, a.global⟩)
  | [] =>
    match a.global with
    | t :: g => (RptAction.ran t, ⟨a.locals, g⟩)
    | [] =>
      match stealFirstSpec a.locals (siblingOrder ctx.my_index_ a.locals.length) with
      | some (t, ls) => (RptAction.ran t, ⟨ls, a.global⟩)
      | none => (RptAction.yielded, a)


/-! ### Helper lemmas: LockedQueue structure -/

namespace LockedQueue

variable {T : Type}

lemma all_some_eq (l : List (Option T)) (h : ∀ x ∈ l, x ≠ none) :
    l = (l.filterMap id).map some := by
  induction l with
  | nil => rfl
  | cons x t ih =>
    cases x with
    | none => exact absurd rfl (h none (List.mem_cons_self _ _))
    | some a =>
      have ht := ih fun x hx => h x (List.mem_cons_of_mem _ hx)
      simpa [List.filterMap_cons] using ht

/-- Under the invariant, the chain is the logical contents followed by the
dummy. -/
lemma canon {q : LockedQueue T} (h : Inv q) :
    ∃ vs : List T, q = ⟨vs.map some ++ [none]⟩ := by
  obtain ⟨hne, hlast, hall⟩ := h
  refine ⟨q.nodes.dropLast.filterMap id, ?_⟩
  have hget : q.nodes.getLast hne = none := by
    have h2 := List.getLast?_eq_getLast q.nodes hne
    rw [h2] at hlast
    exact Option.some_inj.mp hlast
  have hmain : q.nodes = (q.nodes.dropLast.filterMap id).map some ++ [none] := by
    conv_lhs => rw [← List.dropLast_append_getLast hne]
    rw [hget]
    congr 1
    exact all_some_eq _ hall
  rw [← hmain]

lemma inv_mk (vs : List T) : Inv (⟨vs.map some ++ [none]⟩ : LockedQueue T) := by
  refine ⟨by simp, ?_, ?_⟩
  · simp [List.getLast?_concat]
  · intro x hx
    rw [List.dropLast_concat] at hx
    obtain ⟨a, _, rfl⟩ := List.mem_map.mp hx
    simp

lemma toList_mk (vs : List T) :
    toList (⟨vs.map some ++ [none]⟩ : LockedQueue T) = vs := by
  simp [toList, List.dropLast_concat, List.filterMap_map]

lemma inv_init : Inv (init : LockedQueue T) := inv_mk []

lemma empty_mk (vs : List T) :
    Empty (⟨vs.map some ++ [none]⟩ : LockedQueue T) = vs.isEmpty := by
  cases vs <;> simp [Empty]

lemma push_mk (v : T) (vs : List T) :
    Push v (⟨vs.map some ++ [none]⟩ : LockedQueue T) =
      some ⟨(vs ++ [v]).map some ++ [none]⟩ := by
  have h1 : Push v (⟨vs.map some ++ [none]⟩ : LockedQueue T) =
      some ⟨(vs.map some ++ [none]).dropLast ++ [some v, none]⟩ := by
    cases vs <;> rfl
  rw [h1, List.dropLast_concat]
  simp

lemma waitAndPop_mk (vs : List T) :
    WaitAndPop (⟨vs.map some ++ [none]⟩ : LockedQueue T) =
      match vs with
      | [] => none
      | x :: xs => some (some x, ⟨xs.map some ++ [none]⟩) := by
  cases vs with
  | nil => rfl
  | cons x xs =>
    have hemp : Empty (⟨(x :: xs).map some ++ [none]⟩ : LockedQueue T) = false := by
      rw [empty_mk]; rfl
    rw [WaitAndPop, hemp]
    rfl

lemma tryPop_mk (vs : List T) :
    TryPop (⟨vs.map some ++ [none]⟩ : LockedQueue T) =
      match vs with
      | [] => some (none, ⟨vs.map some ++ [none]⟩)
      | x :: xs => some (some x, ⟨xs.map some ++ [none]⟩) := by
  cases vs with
  | nil => rfl
  | cons x xs =>
    have hemp : Empty (⟨(x :: xs).map some ++ [none]⟩ : LockedQueue T) = false := by
      rw [empty_mk]; rfl
    rw [TryPop, hemp]
    rfl

lemma tryPopHeadX_mk (vs : List T) :
    TryPopHeadX (⟨vs.map some ++ [none]⟩ : LockedQueue T) =
      match vs with
      | [] => some none
      | x :: xs => some (some (x, ⟨xs.map some ++ [none]⟩)) := by
  cases vs with
  | nil => rfl
  | cons x xs =>
    have hemp : Empty (⟨(x :: xs).map some ++ [none]⟩ : LockedQueue T) = false := by
      rw [empty_mk]; rfl
    rw [TryPopHeadX, hemp]
    rfl

lemma push_spec {q : LockedQueue T} (h : Inv q) (v : T) :
    ∃ q2, Push v q = some q2 ∧ Inv q2 ∧ toList q2 = toList q ++ [v] := by
  obtain ⟨vs, rfl⟩ := canon h
  rw [push_mk, toList_mk]
  exact ⟨_, rfl, inv_mk _, by rw [toList_mk]⟩

lemma empty_iff {q : LockedQueue T} (h : Inv q) :
    Empty q = true ↔ toList q = [] := by
  obtain ⟨vs, rfl⟩ := canon h
  rw [empty_mk, toList_mk]
  cases vs <;> simp

lemma waitAndPop_spec {q : LockedQueue T} (h : Inv q) {x : T} {xs : List T}
    (hl : toList q = x :: xs) :
    WaitAndPop q = some (some x, ⟨xs.map some ++ [none]⟩) := by
  obtain ⟨vs, rfl⟩ := canon h
  rw [toList_mk] at hl
  rw [hl] at *
  rw [waitAndPop_mk]

lemma waitAndPop_empty {q : LockedQueue T} (h : Inv q)
    (hl : toList q = []) : WaitAndPop q = none := by
  obtain ⟨vs, rfl⟩ := canon h
  rw [toList_mk] at hl
  rw [hl] at *
  rw [waitAndPop_mk]

end LockedQueue

/-! ### Helper lemmas: histories -/

lemma runTrace_spec {σ T : Type} (M : QueueModel σ T) (I : σ → Prop)
    (abs : σ → List T)
    (hpush : ∀ v s s2, I s → M.doPush v s = some s2 →
      I s2 ∧ abs s2 = abs s ++ [v])
    (hpop : ∀ s x s2, I s → M.doPop s = some (x, s2) →
      I s2 ∧ abs s = x :: abs s2) :
    ∀ (t : List (QOp T)) (s s2 : σ) (out : List T), I s →
      runTrace M t s = some (s2, out) →
      out ++ abs s2 = abs s ++ pushesOf t ∧ out.length = popsOf t ∧ I s2 := by
  intro t
  induction t with
  | nil =>
    intro s s2 out hI hrun
    simp only [runTrace] at hrun
    obtain ⟨rfl, rfl⟩ : s = s2 ∧ ([] : List T) = out := by
      have := Option.some_inj.mp hrun
      exact ⟨congrArg Prod.fst this, congrArg Prod.snd this⟩
    simp [pushesOf, popsOf, hI]
  | cons op t ih =>
    intro s s2 out hI hrun
    cases op with
    | push v =>
      simp only [runTrace] at hrun
      cases hp : M.doPush v s with
      | none => rw [hp] at hrun; cases hrun
      | some s1 =>
        rw [hp] at hrun
        obtain ⟨hI1, habs1⟩ := hpush v s s1 hI hp
        obtain ⟨h1, h2, h3⟩ := ih s1 s2 out hI1 hrun
        refine ⟨?_, by simpa [popsOf] using h2, h3⟩
        rw [h1, habs1]
        simp [pushesOf]
    | pop =>
      simp only [runTrace] at hrun
      cases hp : M.doPop s with
      | none => rw [hp] at hrun; cases hrun
      | some r =>
        rw [hp] at hrun
        simp only [Option.some_bind] at hrun
        cases hrest : runTrace M t r.2 with
        | none => rw [hrest] at hrun; cases hrun
        | some u =>
          rw [hrest] at hrun
          simp only [Option.map_some', Option.some_inj, Prod.mk.injEq] at hrun
          obtain ⟨hs2, hout⟩ := hrun
          obtain ⟨hI1, habs⟩ := hpop s r.1 r.2 hI (by rw [hp])
          obtain ⟨h1, h2, h3⟩ := ih r.2 u.1 u.2 hI1 (by rw [hrest])
          subst hs2
          refine ⟨?_, ?_, h3⟩
          · rw [← hout]
            simp only [List.cons_append, h1, habs, pushesOf]
          · rw [← hout]
            simp [popsOf, h2]

lemma lockedQueue_model_push {T : Type} :
    ∀ (v : T) (s s2 : LockedQueue T), LockedQueue.Inv s →
      (LockedQueue.model T).doPush v s = some s2 →
      LockedQueue.Inv s2 ∧ LockedQueue.toList s2 = LockedQueue.toList s ++ [v] := by
  intro v s s2 hI hp
  obtain ⟨q2, hq2, hI2, hl2⟩ := LockedQueue.push_spec hI v
  have : some q2 = some s2 := by rw [← hq2]; exact hp
  cases Option.some_inj.mp this
  exact ⟨hI2, hl2⟩

lemma lockedQueue_model_pop {T : Type} :
    ∀ (s : LockedQueue T) (x : T) (s2 : LockedQueue T), LockedQueue.Inv s →
      (LockedQueue.model T).doPop s = some (x, s2) →
      LockedQueue.Inv s2 ∧ LockedQueue.toList s = x :: LockedQueue.toList s2 := by
  intro s x s2 hI hp
  cases hl : LockedQueue.toList s with
  | nil =>
    have := LockedQueue.waitAndPop_empty hI hl
    simp only [LockedQueue.model, this, Option.bind_none] at hp
    cases hp
  | cons y ys =>
    have hw := LockedQueue.waitAndPop_spec hI hl
    simp only [LockedQueue.model, hw, Option.some_bind, Option.map_some',
      Option.some_inj, Prod.mk.injEq] at hp
    obtain ⟨hx, hs2⟩ := hp
    subst hx
    subst hs2
    refine ⟨LockedQueue.inv_mk ys, ?_⟩
    rw [LockedQueue.toList_mk]

lemma threadSafeQueue_model_push {T : Type} :
    ∀ (v : T) (s s2 : ThreadSafeQueue T), True →
      (ThreadSafeQueue.model T).doPush v s = some s2 →
      True ∧ s2.queue_ = s.queue_ ++ [v] := by
  intro v s s2 _ hp
  have := Option.some_inj.mp hp
  subst this
  exact ⟨trivial, rfl⟩

lemma threadSafeQueue_model_pop {T : Type} :
    ∀ (s : ThreadSafeQueue T) (x : T) (s2 : ThreadSafeQueue T), True →
      (ThreadSafeQueue.model T).doPop s = some (x, s2) →
      True ∧ s.queue_ = x :: s2.queue_ := by
  intro s x s2 _ hp
  cases hq : s.queue_ with
  | nil =>
    have : (ThreadSafeQueue.model T).doPop s = none := by
      simp [ThreadSafeQueue.model, ThreadSafeQueue.WaitAndPop, hq]
    rw [this] at hp
    cases hp
  | cons y ys =>
    have hw : (ThreadSafeQueue.model T).doPop s = some (y, ⟨ys⟩) := by
      simp [ThreadSafeQueue.model, ThreadSafeQueue.WaitAndPop, hq]
    rw [hw] at hp
    obtain ⟨hx, hs2⟩ : y = x ∧ (⟨ys⟩ : ThreadSafeQueue T) = s2 := by
      have := Option.some_inj.mp hp
      exact ⟨congrArg Prod.fst this, congrArg Prod.snd this⟩
    subst hx
    subst hs2
    exact ⟨trivial, rfl⟩

/-! ### Claim theorems: the queues -/

/-- C1: For the fine-grained queue (LockedQueue) and the baseline queue
(ThreadSafeQueue), for every sequence of pushed values p0..pn observed in a
single global order, a consumer popping n+1 times receives exactly those
values in the same order: pop order equals push order (strict FIFO), with
no value lost or duplicated.  Histories interleave the pushes (in order)
with blocking pops; a completed history (every pop obtained a value) yields
the pushed values exactly, in push order. -/
theorem c1_strict_fifo_pop_order_equals_push_order {T : Type}
    (t : List (QOp T)) (ps : List T)
    (hpush : pushesOf t = ps) (hpops : popsOf t = ps.length) :
    (∀ (q : LockedQueue T) (out : List T),
        runTrace (LockedQueue.model T) t LockedQueue.init = some (q, out) →
        out = ps) ∧
    (∀ (q : ThreadSafeQueue T) (out : List T),
        runTrace (ThreadSafeQueue.model T) t ThreadSafeQueue.init = some (q, out) →
        out = ps) := by
  constructor
  · intro q out hrun
    obtain ⟨h1, h2, _⟩ := runTrace_spec (LockedQueue.model T) LockedQueue.Inv
      LockedQueue.toList lockedQueue_model_push lockedQueue_model_pop
      t LockedQueue.init q out LockedQueue.inv_init hrun
    have hinit : LockedQueue.toList (LockedQueue.init : LockedQueue T) = [] := rfl
    rw [hinit, hpush, List.nil_append] at h1
    rw [hpops] at h2
    have : out ++ LockedQueue.toList q = ps ++ [] := by rw [List.append_nil]; exact h1
    exact (List.append_inj this h2).1
  · intro q out hrun
    obtain ⟨h1, h2, _⟩ := runTrace_spec (ThreadSafeQueue.model T) (fun _ => True)
      (fun s => s.queue_) threadSafeQueue_model_push threadSafeQueue_model_pop
      t ThreadSafeQueue.init q out trivial hrun
    have hinit : (ThreadSafeQueue.init : ThreadSafeQueue T).queue_ = [] := rfl
    rw [hinit, hpush, List.nil_append] at h1
    rw [hpops] at h2
    have : out ++ q.queue_ = ps ++ [] := by rw [List.append_nil]; exact h1
    exact (List.append_inj this h2).1

theorem c1_strict_fifo_pop_order_equals_push_order_witness :
    runTrace (LockedQueue.model Nat)
        [QOp.push 0, QOp.pop, QOp.push 1, QOp.push 2, QOp.pop, QOp.pop]
        LockedQueue.init = some (⟨[none]⟩, [0, 1, 2]) ∧
    runTrace (ThreadSafeQueue.model Nat)
        [QOp.push 0, QOp.pop, QOp.push 1, QOp.push 2, QOp.pop, QOp.pop]
        ThreadSafeQueue.init = some (⟨[]⟩, [0, 1, 2]) ∧
    ([0, 1, 2] : List Nat) = [0, 1, 2] :=
  ⟨rfl, rfl,
    (c1_strict_fifo_pop_order_equals_push_order
        [QOp.push 0, QOp.pop, QOp.push 1, QOp.push 2, QOp.pop, QOp.pop]
        [0, 1, 2] rfl rfl).2 ⟨[]⟩ [0, 1, 2] rfl⟩

/-- C2: For the specified queue variants, Push places the value into internal
storage already in its final heap-allocated shareable form — the shared_ptr
(and, for LockedQueue, the new node) is constructed before the lock is
taken, so an allocation failure in Push leaves the queue untouched — and no
value-returning pop (WaitAndPop or TryPop) performs a fallible allocation
during extraction: with the allocation budget at zero, every pop on a
non-empty queue still succeeds with the budget unchanged, so the extraction
step cannot fail and the error branch after the non-empty check is
unreachable. -/
theorem c2_pop_extraction_is_allocation_free {T : Type} :
    (∀ (v : T) (q : ThreadSafeQueue T), ThreadSafeQueue.PushF 0 v q = none) ∧
    (∀ (fuel : Nat) (v : T) (q : ThreadSafeQueue T),
      ThreadSafeQueue.PushF (fuel + 1) v q = some (ThreadSafeQueue.Push v q, fuel)) ∧
    (∀ (q : ThreadSafeQueue T) (fuel : Nat), ThreadSafeQueue.Empty q = false →
      ∃ x q2, ThreadSafeQueue.WaitAndPopF fuel q = some (x, q2, fuel) ∧
        ThreadSafeQueue.TryPopF fuel q = some (some x, q2, fuel)) ∧
    (∀ (v : T) (q : LockedQueue T) (fuel : Nat), fuel ≤ 1 →
      LockedQueue.PushF fuel v q = none) ∧
    (∀ (fuel : Nat) (v : T) (q : LockedQueue T), LockedQueue.Inv q →
      ∃ q2, LockedQueue.PushF (fuel + 2) v q = some (q2, fuel)) ∧
    (∀ (q : LockedQueue T) (fuel : Nat), LockedQueue.Inv q →
      LockedQueue.Empty q = false →
      ∃ x q2, LockedQueue.WaitAndPopF fuel q = some (some x, q2, fuel) ∧
        LockedQueue.TryPopF fuel q = some (some x, q2, fuel)) := by
  refine ⟨fun v q => rfl, fun fuel v q => rfl, ?_, ?_, ?_, ?_⟩
  · intro q fuel hne
    cases hq : q.queue_ with
    | nil => rw [ThreadSafeQueue.Empty, hq] at hne; cases hne
    | cons x rest =>
      refine ⟨x, ⟨rest⟩, ?_, ?_⟩
      · rw [ThreadSafeQueue.WaitAndPopF, ThreadSafeQueue.WaitAndPop, hq]
        rfl
      · rw [ThreadSafeQueue.TryPopF]
        have : ThreadSafeQueue.TryPop q = (some x, ⟨rest⟩) := by
          rw [ThreadSafeQueue.TryPop, hq]
        rw [this]
  · intro v q fuel hfuel
    interval_cases fuel <;> rfl
  · intro fuel v q hI
    obtain ⟨q2, hq2, _, _⟩ := LockedQueue.push_spec hI v
    exact ⟨q2, by rw [LockedQueue.PushF, hq2]; rfl⟩
  · intro q fuel hI hne
    cases hl : LockedQueue.toList q with
    | nil =>
      rw [(LockedQueue.empty_iff hI).mpr hl] at hne
      cases hne
    | cons x xs =>
      refine ⟨x, ⟨xs.map some ++ [none]⟩, ?_, ?_⟩
      · rw [LockedQueue.WaitAndPopF, LockedQueue.waitAndPop_spec hI hl]
        rfl
      · obtain ⟨vs, rfl⟩ := LockedQueue.canon hI
        rw [LockedQueue.toList_mk] at hl
        subst hl
        rw [LockedQueue.TryPopF, LockedQueue.tryPop_mk]
        rfl

theorem c2_pop_extraction_is_allocation_free_witness :
    (∃ x q2, ThreadSafeQueue.WaitAndPopF 0 (⟨[7]⟩ : ThreadSafeQueue Nat) =
        some (x, q2, 0) ∧
      ThreadSafeQueue.TryPopF 0 (⟨[7]⟩ : ThreadSafeQueue Nat) =
        some (some x, q2, 0)) ∧
    (∃ x q2, LockedQueue.WaitAndPopF 0 (⟨[some 7, none]⟩ : LockedQueue Nat) =
        some (some x, q2, 0) ∧
      LockedQueue.TryPopF 0 (⟨[some 7, none]⟩ : LockedQueue Nat) =
        some (some x, q2, 0)) :=
  ⟨(c2_pop_extraction_is_allocation_free.2.2.1 ⟨[7]⟩ 0 (by decide)),
   (c2_pop_extraction_is_allocation_free.2.2.2.2.2 ⟨[some 7, none]⟩ 0
      (by decide) (by decide))⟩

/-- C3: The fine-grained LockedQueue maintains, initially after construction
and across every operation, the invariant that the node chain contains at
least one node (the dummy) — so the head pointer is non-null — and that
head == tail holds exactly when the logical queue is empty; Empty() on a
freshly constructed queue returns true. -/
theorem c3_lockedqueue_dummy_node_invariant {T : Type} :
    LockedQueue.Inv (LockedQueue.init : LockedQueue T) ∧
    LockedQueue.Empty (LockedQueue.init : LockedQueue T) = true ∧
    (∀ (q : LockedQueue T) (v : T), LockedQueue.Inv q →
      ∃ q2, LockedQueue.Push v q = some q2 ∧ LockedQueue.Inv q2) ∧
    (∀ (q : LockedQueue T), LockedQueue.Inv q →
      ∃ r, LockedQueue.TryPop q = some r ∧ LockedQueue.Inv r.2) ∧
    (∀ (q : LockedQueue T) (r : Option T × LockedQueue T), LockedQueue.Inv q →
      LockedQueue.WaitAndPop q = some r → LockedQueue.Inv r.2) ∧
    (∀ (q : LockedQueue T), LockedQueue.Inv q →
      (LockedQueue.Empty q = true ↔ LockedQueue.toList q = [])) := by
  refine ⟨LockedQueue.inv_init, rfl, ?_, ?_, ?_, fun q hI => LockedQueue.empty_iff hI⟩
  · intro q v hI
    obtain ⟨q2, hq2, hI2, _⟩ := LockedQueue.push_spec hI v
    exact ⟨q2, hq2, hI2⟩
  · intro q hI
    obtain ⟨vs, rfl⟩ := LockedQueue.canon hI
    rw [LockedQueue.tryPop_mk]
    cases vs with
    | nil => exact ⟨_, rfl, LockedQueue.inv_mk []⟩
    | cons x xs => exact ⟨_, rfl, LockedQueue.inv_mk xs⟩
  · intro q r hI hr
    obtain ⟨vs, rfl⟩ := LockedQueue.canon hI
    rw [LockedQueue.waitAndPop_mk] at hr
    cases vs with
    | nil => cases hr
    | cons x xs =>
      cases Option.some_inj.mp hr
      exact LockedQueue.inv_mk xs

theorem c3_lockedqueue_dummy_node_invariant_witness :
    (∃ q2, LockedQueue.Push 2 (⟨[some 1, none]⟩ : LockedQueue Nat) = some q2 ∧
      LockedQueue.Inv q2) ∧
    (LockedQueue.Empty (⟨[some 1, none]⟩ : LockedQueue Nat) = true ↔
      LockedQueue.toList (⟨[some 1, none]⟩ : LockedQueue Nat) = []) :=
  ⟨c3_lockedqueue_dummy_node_invariant.2.2.1 ⟨[some 1, none]⟩ 2 (by decide),
   c3_lockedqueue_dummy_node_invariant.2.2.2.2.2 ⟨[some 1, none]⟩ (by decide)⟩

/-- C4: For a WorkStealingQueue into which the owner pushed A, B, C in that
order with no intervening pops, successive TryPop calls yield C, then B,
then A (LIFO at the owner end), while a TrySteal performed before any owner
pop yields A (the oldest item, from the opposite end). -/
theorem c4_workstealing_owner_lifo_thief_oldest {T : Type} (A B C : T) :
    (WorkStealingQueue.Push C (WorkStealingQueue.Push B
        (WorkStealingQueue.Push A WorkStealingQueue.init))).TryPop =
      (some C, ⟨[B, A]⟩) ∧
    (⟨[B, A]⟩ : WorkStealingQueue T).TryPop = (some B, ⟨[A]⟩) ∧
    (⟨[A]⟩ : WorkStealingQueue T).TryPop = (some A, ⟨[]⟩) ∧
    (WorkStealingQueue.Push C (WorkStealingQueue.Push B
        (WorkStealingQueue.Push A WorkStealingQueue.init))).TrySteal =
      (some A, ⟨[C, B]⟩) := by
  refine ⟨rfl, rfl, rfl, ?_⟩
  simp [WorkStealingQueue.TrySteal, WorkStealingQueue.Push, WorkStealingQueue.init]

/-- C9: For the queue variants, a non-blocking TryPop on an empty queue
returns no value without blocking, leaves the queue state unchanged, and is
repeatable indefinitely: k consecutive TryPop calls on an empty queue all
return no value and end with the queue in its original state. -/
theorem c9_trypop_on_empty_returns_no_value_repeatably {T : Type} :
    (∀ (q : LockedQueue T) (k : Nat), LockedQueue.Empty q = true →
      LockedQueue.tryPopN k q = some (List.replicate k none, q)) ∧
    (∀ (q : ThreadSafeQueue T) (k : Nat), ThreadSafeQueue.Empty q = true →
      ThreadSafeQueue.tryPopN k q = (List.replicate k none, q)) ∧
    (∀ (s : WorkStealingQueue T) (k : Nat), WorkStealingQueue.Empty s = true →
      WorkStealingQueue.tryPopN k s = (List.replicate k none, s)) := by
  refine ⟨?_, ?_, ?_⟩
  · intro q k hq
    induction k with
    | zero => rfl
    | succ k ih =>
      have h1 : LockedQueue.TryPop q = some (none, q) := by
        rw [LockedQueue.TryPop, hq]
        rfl
      rw [LockedQueue.tryPopN, h1, Option.some_bind, ih]
      rfl
  · intro q k hq
    have hnil : q.queue_ = [] := by
      rw [ThreadSafeQueue.Empty, List.isEmpty_iff] at hq
      exact hq
    induction k with
    | zero => rfl
    | succ k ih =>
      have h1 : ThreadSafeQueue.TryPop q = (none, q) := by
        rw [ThreadSafeQueue.TryPop, hnil]
      rw [ThreadSafeQueue.tryPopN]
      simp only [h1, ih]
      rfl
  · intro s k hs
    have hnil : s.q_ = [] := by
      rw [WorkStealingQueue.Empty, List.isEmpty_iff] at hs
      exact hs
    induction k with
    | zero => rfl
    | succ k ih =>
      have h1 : WorkStealingQueue.TryPop s = (none, s) := by
        rw [WorkStealingQueue.TryPop, hnil]
      rw [WorkStealingQueue.tryPopN]
      simp only [h1, ih]
      rfl

theorem c9_trypop_on_empty_returns_no_value_repeatably_witness :
    LockedQueue.tryPopN 3 (LockedQueue.init : LockedQueue Nat) =
      some ([none, none, none], LockedQueue.init) ∧
    ThreadSafeQueue.tryPopN 3 (ThreadSafeQueue.init : ThreadSafeQueue Nat) =
      ([none, none, none], ThreadSafeQueue.init) ∧
    WorkStealingQueue.tryPopN 3 (WorkStealingQueue.init : WorkStealingQueue Nat) =
      ([none, none, none], WorkStealingQueue.init) :=
  ⟨c9_trypop_on_empty_returns_no_value_repeatably.1 LockedQueue.init 3 (by decide),
   c9_trypop_on_empty_returns_no_value_repeatably.2.1 ThreadSafeQueue.init 3 (by decide),
   c9_trypop_on_empty_returns_no_value_repeatably.2.2 WorkStealingQueue.init 3 (by decide)⟩

/-- C10: Whenever an out-parameter pop returns false — ThreadSafeQueue
TryPop(T*), LockedQueue TryPop(T*), WorkStealingQueue TryPop or TrySteal on
an empty container — the out-parameter is never written: the value object
passed by the caller is exactly as it was before the call, and the
container is unchanged. -/
theorem c10_failed_out_param_pop_never_writes_out {T : Type} :
    (∀ (q : ThreadSafeQueue T) (out : T),
      (ThreadSafeQueue.TryPopOut q out).1 = false →
      ThreadSafeQueue.TryPopOut q out = (false, out, q)) ∧
    (∀ (q : LockedQueue T) (out : T) (r : Bool × T × LockedQueue T),
      LockedQueue.TryPopOut q out = some r → r.1 = false →
      r = (false, out, q)) ∧
    (∀ (s : WorkStealingQueue T) (out : T),
      (WorkStealingQueue.TryPopOut s out).1 = false →
      WorkStealingQueue.TryPopOut s out = (false, out, s)) ∧
    (∀ (s : WorkStealingQueue T) (out : T),
      (WorkStealingQueue.TryStealOut s out).1 = false →
      WorkStealingQueue.TryStealOut s out = (false, out, s)) := by
  refine ⟨?_, ?_, ?_, ?_⟩
  · intro q out hf
    cases hq : q.queue_ with
    | nil => rw [ThreadSafeQueue.TryPopOut, hq]
    | cons x rest =>
      rw [ThreadSafeQueue.TryPopOut, hq] at hf
      cases hf
  · intro q out r hr hf
    rw [LockedQueue.TryPopOut] at hr
    cases hx : LockedQueue.TryPopHeadX q with
    | none => rw [hx] at hr; cases hr
    | some o =>
      rw [hx] at hr
      cases o with
      | none =>
        cases Option.some_inj.mp hr
        rfl
      | some p =>
        cases Option.some_inj.mp hr
        cases hf
  · intro s out hf
    cases hs : s.q_ with
    | nil => rw [WorkStealingQueue.TryPopOut, hs]
    | cons x rest =>
      rw [WorkStealingQueue.TryPopOut, hs] at hf
      cases hf
  · intro s out hf
    cases hs : s.q_.getLast? with
    | none => rw [WorkStealingQueue.TryStealOut, hs]
    | some x =>
      rw [WorkStealingQueue.TryStealOut, hs] at hf
      cases hf

theorem c10_failed_out_param_pop_never_writes_out_witness :
    ThreadSafeQueue.TryPopOut (ThreadSafeQueue.init : ThreadSafeQueue Nat) 42 =
      (false, 42, ThreadSafeQueue.init) ∧
    (false, 42, (LockedQueue.init : LockedQueue Nat)) =
      (false, 42, LockedQueue.init) ∧
    WorkStealingQueue.TryPopOut (WorkStealingQueue.init : WorkStealingQueue Nat) 42 =
      (false, 42, WorkStealingQueue.init) ∧
    WorkStealingQueue.TryStealOut (WorkStealingQueue.init : WorkStealingQueue Nat) 42 =
      (false, 42, WorkStealingQueue.init) :=
  ⟨c10_failed_out_param_pop_never_writes_out.1 ThreadSafeQueue.init 42 (by decide),
   c10_failed_out_param_pop_never_writes_out.2.1 LockedQueue.init 42
     (false, 42, LockedQueue.init) (by decide) (by decide),
   c10_failed_out_param_pop_never_writes_out.2.2.1 WorkStealingQueue.init 42 (by decide),
   c10_failed_out_param_pop_never_writes_out.2.2.2 WorkStealingQueue.init 42 (by decide)⟩

/-! ### Helper lemmas: the pool -/

lemma list_set_self {α : Type} (l : List α) :
    ∀ (i : Nat) (a : α), l[i]? = some a → l.set i a = l := by
  induction l with
  | nil => intro i a h; simp at h
  | cons x t ih =>
    intro i a h
    cases i with
    | zero =>
      simp only [List.getElem?_cons_zero, Option.some_inj] at h
      rw [← h]
      rfl
    | succ i =>
      simp only [List.getElem?_cons_succ] at h
      show x :: t.set i a = x :: t
      rw [ih i a h]

lemma poolAbs_locals_getD {T : Type} (p : ThreadPool T) {my : Nat}
    {w : WorkStealingQueue T} (hw : p.local_task_queues_[my]? = some w) :
    (poolAbs p).locals.getD my [] = w.q_ := by
  show (p.local_task_queues_.map fun w => w.q_).getD my [] = w.q_
  rw [List.getD_eq_getElem?_getD, List.getElem?_map, hw]
  rfl

lemma lockedQueue_tryPopHeadX_spec {T : Type} {q : LockedQueue T}
    (hI : LockedQueue.Inv q) :
    LockedQueue.TryPopHeadX q =
      match LockedQueue.toList q with
      | [] => some none
      | x :: xs => some (some (x, ⟨xs.map some ++ [none]⟩)) := by
  obtain ⟨vs, rfl⟩ := LockedQueue.canon hI
  rw [LockedQueue.toList_mk, LockedQueue.tryPopHeadX_mk]

lemma popTaskFromGlobalQueue_empty {T : Type} {p : ThreadPool T}
    (hinv : LockedQueue.Inv p.global_task_queue_)
    (hl : LockedQueue.toList p.global_task_queue_ = []) :
    ThreadPool.PopTaskFromGlobalQueue p = some (none, p) := by
  have hx : LockedQueue.TryPopHeadX p.global_task_queue_ = some none := by
    rw [lockedQueue_tryPopHeadX_spec hinv, hl]
  rw [ThreadPool.PopTaskFromGlobalQueue, hx]

lemma popTaskFromGlobalQueue_cons {T : Type} {p : ThreadPool T}
    (hinv : LockedQueue.Inv p.global_task_queue_) {t : T} {g : List T}
    (hl : LockedQueue.toList p.global_task_queue_ = t :: g) :
    ThreadPool.PopTaskFromGlobalQueue p =
      some (some t, { p with global_task_queue_ := ⟨g.map some ++ [none]⟩ }) := by
  have hx : LockedQueue.TryPopHeadX p.global_task_queue_ =
      some (some (t, ⟨g.map some ++ [none]⟩)) := by
    rw [lockedQueue_tryPopHeadX_spec hinv, hl]
  rw [ThreadPool.PopTaskFromGlobalQueue, hx]

lemma popTaskFromLocalQueue_spec {T : Type} {ctx : WorkerCtx} {p : ThreadPool T}
    (hloc : ctx.has_local_ = true) {w : WorkStealingQueue T}
    (hw : p.local_task_queues_[ctx.my_index_]? = some w) :
    ThreadPool.PopTaskFromLocalQueue ctx p =
      some (w.TryPop.1, { p with
        local_task_queues_ :=
          p.local_task_queues_.set ctx.my_index_ w.TryPop.2 }) := by
  rw [ThreadPool.PopTaskFromLocalQueue, hloc]
  simp only [if_true]
  rw [hw]

lemma popTaskFromLocalQueue_empty {T : Type} {ctx : WorkerCtx} {p : ThreadPool T}
    (hloc : ctx.has_local_ = true) {w : WorkStealingQueue T}
    (hw : p.local_task_queues_[ctx.my_index_]? = some w)
    (hq : w.q_ = []) :
    ThreadPool.PopTaskFromLocalQueue ctx p = some (none, p) := by
  rw [popTaskFromLocalQueue_spec hloc hw]
  have htp : w.TryPop = (none, w) := by rw [WorkStealingQueue.TryPop, hq]
  rw [htp, list_set_self _ _ _ hw]

lemma siblingOrder_lt {my n : Nat} (hn : 0 < n) :
    ∀ i ∈ siblingOrder my n, i < n := by
  intro i hi
  obtain ⟨j, _, rfl⟩ := List.mem_map.mp hi
  exact Nat.mod_lt _ hn

lemma stealOrder_eq_sibling {my n : Nat} (h : my < n) :
    ThreadPool.stealOrder my n = siblingOrder my n ++ [my] := by
  obtain ⟨m, rfl⟩ : ∃ m, n = m + 1 := ⟨n - 1, by omega⟩
  rw [ThreadPool.stealOrder, siblingOrder, Nat.add_sub_cancel,
    List.range_succ, List.map_append]
  congr 1
  simp only [List.map_cons, List.map_nil, List.cons.injEq, and_true]
  have h2 : my + 1 + m = my + (m + 1) := by omega
  rw [h2, Nat.add_mod_right]
  exact Nat.mod_eq_of_lt h

lemma tryStealFrom_valid_spec {T : Type} (qs : List (WorkStealingQueue T)) :
    ∀ idxs : List Nat, (∀ i ∈ idxs, i < qs.length) →
      (stealFirstSpec (qs.map fun w => w.q_) idxs = none ∧
        ThreadPool.TryStealFrom qs idxs = some (none, qs)) ∨
      (∃ t qs2, ThreadPool.TryStealFrom qs idxs = some (some t, qs2) ∧
        stealFirstSpec (qs.map fun w => w.q_) idxs =
          some (t, qs2.map fun w => w.q_)) := by
  intro idxs
  induction idxs with
  | nil => exact fun _ => Or.inl ⟨rfl, rfl⟩
  | cons i rest ih =>
    intro hv
    have hi : i < qs.length := hv i (List.mem_cons_self _ _)
    have hw : qs[i]? = some qs[i] := List.getElem?_eq_getElem hi
    have hgetD : (qs.map fun w => w.q_).getD i [] = qs[i].q_ := by
      rw [List.getD_eq_getElem?_getD, List.getElem?_map, hw]
      rfl
    cases hlast : qs[i].q_.getLast? with
    | some t =>
      right
      have hsteal : qs[i].TrySteal = (some t, ⟨qs[i].q_.dropLast⟩) := by
        rw [WorkStealingQueue.TrySteal, hlast]
      refine ⟨t, qs.set i ⟨qs[i].q_.dropLast⟩, ?_, ?_⟩
      · simp only [ThreadPool.TryStealFrom, hw, hsteal]
      · rw [stealFirstSpec, hgetD, hlast, List.map_set]
    | none =>
      have hsteal : qs[i].TrySteal = (none, qs[i]) := by
        rw [WorkStealingQueue.TrySteal, hlast]
      have hunf : ThreadPool.TryStealFrom qs (i :: rest) =
          ThreadPool.TryStealFrom qs rest := by
        simp only [ThreadPool.TryStealFrom, hw, hsteal]
      have hspec : stealFirstSpec (qs.map fun w => w.q_) (i :: rest) =
          stealFirstSpec (qs.map fun w => w.q_) rest := by
        rw [stealFirstSpec, hgetD, hlast]
      rw [hunf, hspec]
      exact ih fun j hj => hv j (List.mem_cons_of_mem _ hj)

lemma tryStealFrom_append_own_empty {T : Type} (qs : List (WorkStealingQueue T))
    {my : Nat} {w : WorkStealingQueue T} (hw : qs[my]? = some w)
    (hq : w.q_ = []) :
    ∀ idxs : List Nat,
      ThreadPool.TryStealFrom qs (idxs ++ [my]) =
        ThreadPool.TryStealFrom qs idxs := by
  intro idxs
  induction idxs with
  | nil =>
    have hsteal : w.TrySteal = (none, w) := by
      rw [WorkStealingQueue.TrySteal, hq]
      rfl
    rw [List.nil_append]
    simp only [ThreadPool.TryStealFrom, hw, hsteal]
  | cons i rest ih =>
    rw [List.cons_append]
    cases hwi : qs[i]? with
    | none => simp only [ThreadPool.TryStealFrom, hwi]
    | some w2 =>
      cases h2 : w2.TrySteal with
      | mk o w3 =>
        cases o with
        | none => simp only [ThreadPool.TryStealFrom, hwi, h2]; exact ih
        | some x => simp only [ThreadPool.TryStealFrom, hwi, h2]

lemma locals_getD {T : Type} {p : ThreadPool T} {my : Nat}
    {w : WorkStealingQueue T} (hw : p.local_task_queues_[my]? = some w) :
    (p.local_task_queues_.map fun w => w.q_).getD my [] = w.q_ := by
  rw [List.getD_eq_getElem?_getD, List.getElem?_map, hw]
  rfl

lemma runPendingTask_after_local_miss {T : Type} {ctx : WorkerCtx}
    {p p1 : ThreadPool T}
    (h1 : ThreadPool.PopTaskFromLocalQueue ctx p = some (none, p1)) :
    ThreadPool.RunPendingTask ctx p =
      (ThreadPool.PopTaskFromGlobalQueue p1).bind fun r2 =>
        match r2.1 with
        | some t => some (RptAction.ran t, r2.2)
        | none =>
          (ThreadPool.PopTaskFromOtherThreadQueue ctx r2.2).map fun r3 =>
            match r3.1 with
            | some t => (RptAction.ran t, r3.2)
            | none => (RptAction.yielded, r3.2) := by
  rw [ThreadPool.RunPendingTask, h1]
  rfl

lemma runPendingTask_after_global_miss {T : Type} {ctx : WorkerCtx}
    {p p1 p2 : ThreadPool T}
    (h1 : ThreadPool.PopTaskFromLocalQueue ctx p = some (none, p1))
    (h2 : ThreadPool.PopTaskFromGlobalQueue p1 = some (none, p2)) :
    ThreadPool.RunPendingTask ctx p =
      (ThreadPool.PopTaskFromOtherThreadQueue ctx p2).map fun r3 =>
        match r3.1 with
        | some t => (RptAction.ran t, r3.2)
        | none => (RptAction.yielded, r3.2) := by
  rw [runPendingTask_after_local_miss h1, h2]
  rfl

/-- RunPendingTask, translated from the source, computes exactly the attempt
order the specification claims, for a worker-thread caller with a valid
index and a well-formed global queue. -/
lemma runPendingTask_spec {T : Type} (ctx : WorkerCtx) (p : ThreadPool T)
    (hloc : ctx.has_local_ = true)
    (hidx : ctx.my_index_ < p.local_task_queues_.length)
    (hinv : LockedQueue.Inv p.global_task_queue_) :
    ∃ a p2, ThreadPool.RunPendingTask ctx p = some (a, p2) ∧
      (a, poolAbs p2) = RunPendingTaskSpec ctx (poolAbs p) := by
  have hw : p.local_task_queues_[ctx.my_index_]? =
      some p.local_task_queues_[ctx.my_index_] := List.getElem?_eq_getElem hidx
  cases hq : p.local_task_queues_[ctx.my_index_].q_ with
  | cons t rest =>
    have htp : p.local_task_queues_[ctx.my_index_].TryPop = (some t, ⟨rest⟩) := by
      rw [WorkStealingQueue.TryPop, hq]
    have h1 := popTaskFromLocalQueue_spec hloc hw
    rw [htp] at h1
    refine ⟨RptAction.ran t,
      { p with local_task_queues_ :=
          p.local_task_queues_.set ctx.my_index_ ⟨rest⟩ }, ?_, ?_⟩
    · rw [ThreadPool.RunPendingTask, h1]
      rfl
    · have hspec : RunPendingTaskSpec ctx (poolAbs p) =
          (RptAction.ran t,
            ⟨(p.local_task_queues_.map fun w => w.q_).set ctx.my_index_ rest,
              LockedQueue.toList p.global_task_queue_⟩) := by
        simp only [RunPendingTaskSpec, poolAbs]
        rw [locals_getD hw, hq]
      rw [hspec]
      simp only [poolAbs, List.map_set]
  | nil =>
    have h1 := popTaskFromLocalQueue_empty hloc hw hq
    cases hg : LockedQueue.toList p.global_task_queue_ with
    | cons t g =>
      have h2 := popTaskFromGlobalQueue_cons hinv hg
      refine ⟨RptAction.ran t,
        { p with global_task_queue_ := ⟨g.map some ++ [none]⟩ }, ?_, ?_⟩
      · rw [runPendingTask_after_local_miss h1, h2]
        rfl
      · have hspec : RunPendingTaskSpec ctx (poolAbs p) =
            (RptAction.ran t, ⟨p.local_task_queues_.map fun w => w.q_, g⟩) := by
          simp only [RunPendingTaskSpec, poolAbs]
          rw [locals_getD hw, hq, hg]
        rw [hspec]
        simp only [poolAbs, LockedQueue.toList_mk]
    | nil =>
      have h2 := popTaskFromGlobalQueue_empty hinv hg
      have hn : 0 < p.local_task_queues_.length := Nat.lt_of_le_of_lt (Nat.zero_le _) hidx
      have hord := stealOrder_eq_sibling hidx
      have happ := tryStealFrom_append_own_empty p.local_task_queues_ hw hq
        (siblingOrder ctx.my_index_ p.local_task_queues_.length)
      rcases tryStealFrom_valid_spec p.local_task_queues_
          (siblingOrder ctx.my_index_ p.local_task_queues_.length)
          (siblingOrder_lt hn) with ⟨hnone, hfail⟩ | ⟨t, qs2, hsucc, hspec2⟩
      · have h3 : ThreadPool.PopTaskFromOtherThreadQueue ctx p = some (none, p) := by
          rw [ThreadPool.PopTaskFromOtherThreadQueue, hord, happ, hfail]
          rfl
        refine ⟨RptAction.yielded, p, ?_, ?_⟩
        · rw [runPendingTask_after_global_miss h1 h2, h3]
          rfl
        · have hspec : RunPendingTaskSpec ctx (poolAbs p) =
              (RptAction.yielded, poolAbs p) := by
            simp only [RunPendingTaskSpec, poolAbs]
            rw [locals_getD hw, hq, hg]
            simp only [List.length_map]
            rw [hnone]
          rw [hspec]
      · have h3 : ThreadPool.PopTaskFromOtherThreadQueue ctx p =
            some (some t, { p with local_task_queues_ := qs2 }) := by
          rw [ThreadPool.PopTaskFromOtherThreadQueue, hord, happ, hsucc]
          rfl
        refine ⟨RptAction.ran t, { p with local_task_queues_ := qs2 }, ?_, ?_⟩
        · rw [runPendingTask_after_global_miss h1 h2, h3]
          rfl
        · have hspec : RunPendingTaskSpec ctx (poolAbs p) =
              (RptAction.ran t, ⟨qs2.map fun w => w.q_,
                LockedQueue.toList p.global_task_queue_⟩) := by
            simp only [RunPendingTaskSpec, poolAbs]
            rw [locals_getD hw, hq, hg]
            simp only [List.length_map]
            rw [hspec2]
          rw [hspec]
          simp only [poolAbs]

/-! ### Claim theorems: the pool -/

/-- C5: Each call to ThreadPool::RunPendingTask attempts sources in exactly
this order: (1) the caller's local deque, (2) the global queue, (3)
stealing from each sibling deque in round-robin order starting at the index
just after the caller's own index; it executes the first task found (at
most one task per call), and if all three attempts fail it yields the
processor once instead of running anything.  Stated as a refinement: for a
worker caller, RunPendingTask computes exactly RunPendingTaskSpec, the
verbatim restatement of the claimed order, on the abstract pool contents.
(The source steal loop also revisits the caller's own deque as its final
index; that deque was just found empty in step (1), so the visit never
yields a task and the observable behaviour is the sibling round-robin of
the claim.) -/
theorem c5_run_pending_task_attempt_order {T : Type} (ctx : WorkerCtx)
    (p : ThreadPool T) (hloc : ctx.has_local_ = true)
    (hidx : ctx.my_index_ < p.local_task_queues_.length)
    (hinv : LockedQueue.Inv p.global_task_queue_) :
    ∃ a p2, ThreadPool.RunPendingTask ctx p = some (a, p2) ∧
      (a, poolAbs p2) = RunPendingTaskSpec ctx (poolAbs p) :=
  runPendingTask_spec ctx p hloc hidx hinv

theorem c5_run_pending_task_attempt_order_witness :
    ThreadPool.RunPendingTask ⟨0, true⟩
        (⟨false, LockedQueue.init, [⟨[]⟩, ⟨[5]⟩]⟩ : ThreadPool Nat) =
      some (RptAction.ran 5, ⟨false, LockedQueue.init, [⟨[]⟩, ⟨[]⟩]⟩) ∧
    (∃ a p2, ThreadPool.RunPendingTask ⟨0, true⟩
        (⟨false, LockedQueue.init, [⟨[]⟩, ⟨[5]⟩]⟩ : ThreadPool Nat) =
          some (a, p2) ∧
      (a, poolAbs p2) = RunPendingTaskSpec ⟨0, true⟩
        (poolAbs (⟨false, LockedQueue.init, [⟨[]⟩, ⟨[5]⟩]⟩ : ThreadPool Nat))) :=
  ⟨rfl, c5_run_pending_task_attempt_order ⟨0, true⟩
    ⟨false, LockedQueue.init, [⟨[]⟩, ⟨[5]⟩]⟩ rfl (by decide) (by decide)⟩

/-- C6: ThreadPool::Submit wraps the callable as a task, enqueues it on the
calling worker's local deque when the caller is a pool worker thread (its
thread-local deque pointer is set) and on the global queue otherwise,
returns a future for the callable's result, and never blocks the
submitter: under the stated validity, Submit always completes (it is built
from Push operations only, never from a blocking wait, which the embedding
renders as none). -/
theorem c6_submit_placement_and_no_blocking {T : Type} (ctx : WorkerCtx)
    (f : T) (p : ThreadPool T)
    (hidx : ctx.has_local_ = true → ctx.my_index_ < p.local_task_queues_.length)
    (hinv : LockedQueue.Inv p.global_task_queue_) :
    ∃ p2, ThreadPool.Submit ctx f p = some (Future.mk f, p2) ∧
      p2.done_ = p.done_ ∧
      (ctx.has_local_ = true →
        poolAbs p2 = ⟨(poolAbs p).locals.set ctx.my_index_
            (f :: (poolAbs p).locals.getD ctx.my_index_ []),
          (poolAbs p).global⟩) ∧
      (ctx.has_local_ = false →
        poolAbs p2 = ⟨(poolAbs p).locals, (poolAbs p).global ++ [f]⟩) := by
  cases hl : ctx.has_local_ with
  | true =>
    have hlt := hidx hl
    obtain ⟨w, hw⟩ : ∃ w, p.local_task_queues_[ctx.my_index_]? = some w :=
      ⟨_, List.getElem?_eq_getElem hlt⟩
    refine ⟨{ p with local_task_queues_ :=
        p.local_task_queues_.set ctx.my_index_ (w.Push f) }, ?_, rfl, ?_, ?_⟩
    · rw [ThreadPool.Submit, hl]
      simp only [if_true]
      rw [hw]
    · intro _
      simp only [poolAbs, List.map_set, WorkStealingQueue.Push]
      rw [locals_getD hw]
    · intro hfalse
      cases hfalse
  | false =>
    obtain ⟨q2, hq2, _, hl2⟩ := LockedQueue.push_spec hinv f
    refine ⟨{ p with global_task_queue_ := q2 }, ?_, rfl, ?_, ?_⟩
    · rw [ThreadPool.Submit, hl]
      simp only [Bool.false_eq_true, if_false]
      rw [hq2]
      rfl
    · intro htrue
      cases htrue
    · intro _
      simp only [poolAbs]
      rw [hl2]

theorem c6_submit_placement_and_no_blocking_witness :
    (∃ p2, ThreadPool.Submit ⟨1, true⟩ 9
        (⟨false, LockedQueue.init, [⟨[]⟩, ⟨[4]⟩]⟩ : ThreadPool Nat) =
          some (Future.mk 9, p2) ∧
      p2.done_ = false ∧
      ((true : Bool) = true →
        poolAbs p2 = ⟨(poolAbs (⟨false, LockedQueue.init, [⟨[]⟩, ⟨[4]⟩]⟩ :
            ThreadPool Nat)).locals.set 1
            (9 :: (poolAbs (⟨false, LockedQueue.init, [⟨[]⟩, ⟨[4]⟩]⟩ :
              ThreadPool Nat)).locals.getD 1 []),
          (poolAbs (⟨false, LockedQueue.init, [⟨[]⟩, ⟨[4]⟩]⟩ :
            ThreadPool Nat)).global⟩) ∧
      ((true : Bool) = false →
        poolAbs p2 = ⟨(poolAbs (⟨false, LockedQueue.init, [⟨[]⟩, ⟨[4]⟩]⟩ :
            ThreadPool Nat)).locals,
          (poolAbs (⟨false, LockedQueue.init, [⟨[]⟩, ⟨[4]⟩]⟩ :
            ThreadPool Nat)).global ++ [9]⟩)) ∧
    (∃ p2, ThreadPool.Submit ⟨0, false⟩ 9
        (⟨false, LockedQueue.init, [⟨[]⟩]⟩ : ThreadPool Nat) =
          some (Future.mk 9, p2) ∧
      p2.done_ = false ∧
      ((false : Bool) = true →
        poolAbs p2 = ⟨(poolAbs (⟨false, LockedQueue.init, [⟨[]⟩]⟩ :
            ThreadPool Nat)).locals.set 0
            (9 :: (poolAbs (⟨false, LockedQueue.init, [⟨[]⟩]⟩ :
              ThreadPool Nat)).locals.getD 0 []),
          (poolAbs (⟨false, LockedQueue.init, [⟨[]⟩]⟩ :
            ThreadPool Nat)).global⟩) ∧
      ((false : Bool) = false →
        poolAbs p2 = ⟨(poolAbs (⟨false, LockedQueue.init, [⟨[]⟩]⟩ :
            ThreadPool Nat)).locals,
          (poolAbs (⟨false, LockedQueue.init, [⟨[]⟩]⟩ :
            ThreadPool Nat)).global ++ [9]⟩)) :=
  ⟨c6_submit_placement_and_no_blocking ⟨1, true⟩ 9
      ⟨false, LockedQueue.init, [⟨[]⟩, ⟨[4]⟩]⟩ (fun _ => by decide) (by decide),
   c6_submit_placement_and_no_blocking ⟨0, false⟩ 9
      ⟨false, LockedQueue.init, [⟨[]⟩]⟩ (fun h => by cases h) (by decide)⟩

/-- C7: On ThreadPool destruction the shutdown flag is set and then every
worker thread is joined (the destruction trace opens with setDone and the
joins of all workers follow it); each worker polls the shutdown flag once
per loop iteration and exits its loop immediately after observing it set
(running no further task); and the worker loop body never performs a
blocking pop — RunPendingTask is built from TryPop, TrySteal and a yield
only, so for a worker caller it always completes in one step (the embedding
renders a blocking wait as none). -/
theorem c7_shutdown_sets_flag_then_joins_and_workers_never_block {T : Type} :
    (∀ n : Nat, (destructionTrace n).head? = some ShutdownEvent.setDone ∧
      ∀ i, i < n → ShutdownEvent.joinWorker i ∈ (destructionTrace n).tail) ∧
    (∀ (ctx : WorkerCtx) (p : ThreadPool T) (fuel : Nat), p.done_ = true →
      ThreadPool.workerLoop ctx (fuel + 1) p = some []) ∧
    (∀ (ctx : WorkerCtx) (p : ThreadPool T), ctx.has_local_ = true →
      ctx.my_index_ < p.local_task_queues_.length →
      LockedQueue.Inv p.global_task_queue_ →
      ∃ r, ThreadPool.RunPendingTask ctx p = some r) := by
  refine ⟨?_, ?_, ?_⟩
  · intro n
    refine ⟨rfl, ?_⟩
    intro i hi
    show ShutdownEvent.joinWorker i ∈ (List.range n).map ShutdownEvent.joinWorker
    exact List.mem_map.mpr ⟨i, List.mem_range.mpr hi, rfl⟩
  · intro ctx p fuel hdone
    rw [ThreadPool.workerLoop, hdone]
    simp only [if_true]
  · intro ctx p hloc hidx hinv
    obtain ⟨a, p2, h, _⟩ := runPendingTask_spec ctx p hloc hidx hinv
    exact ⟨(a, p2), h⟩

theorem c7_shutdown_sets_flag_then_joins_and_workers_never_block_witness :
    ((destructionTrace 2).head? = some ShutdownEvent.setDone ∧
      ∀ i, i < 2 → ShutdownEvent.joinWorker i ∈ (destructionTrace 2).tail) ∧
    ThreadPool.workerLoop ⟨0, true⟩ 1
      (⟨true, LockedQueue.init, [⟨[7]⟩]⟩ : ThreadPool Nat) = some [] ∧
    (∃ r, ThreadPool.RunPendingTask ⟨0, true⟩
      (⟨false, LockedQueue.init, [⟨[7]⟩]⟩ : ThreadPool Nat) = some r) :=
  ⟨(c7_shutdown_sets_flag_then_joins_and_workers_never_block (T := Nat)).1 2,
   (c7_shutdown_sets_flag_then_joins_and_workers_never_block (T := Nat)).2.1
     ⟨0, true⟩ ⟨true, LockedQueue.init, [⟨[7]⟩]⟩ 0 rfl,
   (c7_shutdown_sets_flag_then_joins_and_workers_never_block (T := Nat)).2.2
     ⟨0, true⟩ ⟨false, LockedQueue.init, [⟨[7]⟩]⟩ rfl (by decide) (by decide)⟩

/-- C8 counterexample: the claim says construction accepts an optional
override of the worker count, but the source has exactly one constructor,
ThreadPool(), with no parameters: on a host whose hardware concurrency is
4, no construction produces any worker count other than 4 (in particular
none produces 2). -/
theorem c8_no_worker_count_override_exists :
    ¬ ∃ p : ThreadPool Nat, ThreadPool.Construction Nat 4 p ∧
      ThreadPool.numWorkers p = 2 := by
  rintro ⟨p, hc, hn⟩
  cases hc
  rw [ThreadPool.numWorkers] at hn
  simp [ThreadPool.init] at hn

/-- C8 amended: ThreadPool construction requires no configuration and
defaults the worker count to the host's hardware concurrency; no optional
override of the worker count is accepted (the default constructor is the
only constructor). -/
theorem c8_construction_defaults_to_hardware_concurrency {T : Type}
    (hw : Nat) (p : ThreadPool T) (h : ThreadPool.Construction T hw p) :
    ThreadPool.numWorkers p = hw ∧ p.done_ = false := by
  cases h
  refine ⟨?_, rfl⟩
  rw [ThreadPool.numWorkers]
  simp [ThreadPool.init]

theorem c8_construction_defaults_to_hardware_concurrency_witness :
    ThreadPool.numWorkers (ThreadPool.init Nat 4) = 4 ∧
    (ThreadPool.init Nat 4).done_ = false :=
  c8_construction_defaults_to_hardware_concurrency 4 (ThreadPool.init Nat 4)
    ThreadPool.Construction.default
